import Mathlib

set_option maxRecDepth 40000

/-!
Verification development for the Hush anonymous onion-routing transport.

This file gives a shallow embedding of the AORP transport layer
(src/lib/aorp-transport.ts, first variant) and of the taior WASM client
wrapper (src/lib/taior.ts), and proves or refutes the frozen behavioural
claims about them.

Modelling conventions:
* byte buffers (Uint8Array) are modelled as List Nat;
* the WebCrypto ECDH + AES-GCM primitives are modelled by an abstract
  provider (structure ECProvider) whose fields carry exactly the algebraic
  facts the runtime guarantees: raw P-256 public keys are 65 bytes long,
  ECDH key agreement is symmetric, and AEAD decryption inverts encryption
  under the same key and nonce.  All code that surrounds the primitives
  (framing, layering, routing, padding) is translated literally;
* sources of randomness (Math.random, crypto.getRandomValues, ephemeral
  keypairs, fresh IVs) are passed in as explicit oracle arguments.
-/

/-- A discovered AORP participant (interface AORPNode in the source;
the cached CryptoKey handle and the address string play no role in the
verified behaviour and are omitted). -/
structure AORPNode where
  id : List Nat
  publicKey : List Nat
  lastSeen : Nat
deriving DecidableEq

/-- An onion circuit (interface Circuit in the source). -/
structure Circuit where
  id : List Nat
  nodes : List AORPNode
  createdAt : Nat
  ttl : Nat
deriving DecidableEq

/-- Abstract model of the WebCrypto primitives used by encryptLayer /
decryptLayer: raw public-key serialisation, ECDH agreement, and the
AES-GCM AEAD.  The three propositional fields are the properties the
real primitives provide. -/
structure ECProvider where
  pub : Nat → List Nat
  dh : Nat → List Nat → List Nat
  aesEnc : List Nat → List Nat → List Nat → List Nat
  aesDec : List Nat → List Nat → List Nat → Option (List Nat)
  pub_length : ∀ p, (pub p).length = 65
  dh_comm : ∀ a b, dh a (pub b) = dh b (pub a)
  aes_dec_enc : ∀ k iv pt, aesDec k iv (aesEnc k iv pt) = some pt

/-- A concrete executable instance of ECProvider, used to evaluate the
pipeline on explicit inputs (witnesses and counterexamples). -/
def demoEC : ECProvider where
  pub p := List.replicate 64 0 ++ [p]
  dh a l := [a * l.sum]
  aesEnc k iv pt := (k.sum + iv.sum + 7) :: pt
  aesDec k iv ct :=
    match ct with
    | [] => none
    | t :: rest => if t = k.sum + iv.sum + 7 then some rest else none
  pub_length := by
    intro p
    simp
  dh_comm := by
    intro a b
    simp [List.sum_append, Nat.mul_comm]
  aes_dec_enc := by
    intro k iv pt
    simp

/-- Writing a byte sequence into a fresh zero-initialised buffer of n
bytes: buf.set(bytes.slice(0, n)) keeps the first n bytes and leaves the
rest of the buffer zero. -/
def padTo (n : Nat) (l : List Nat) : List Nat :=
  l.take n ++ List.replicate (n - (l.take n).length) 0

/-- AORPTransport.buildAORPPacket: the inner AORP frame
[0xAA, flags, 16-byte destination, 2-byte big-endian length, payload,
random padding to the next 512-byte boundary].  The destination is the
last circuit node's id truncated to 16 bytes and right-padded with
zeros; padRnd is the padding randomness oracle.  The source performs no
input validation: oversized payload lengths are truncated by the two
byte-sized writes and oversized destination ids by slice(0, 16). -/
def buildAORPPacket (payload : List Nat) (circuitNodes : List AORPNode) (padRnd : Nat → Nat) : List Nat :=
  let flags : Nat := if circuitNodes.length > 1 then 1 else 0
  let finalDestId := (circuitNodes.getLastD ⟨[], [], 0⟩).id
  let destination := padTo 16 finalDestId
  let len := payload.length
  let lengthBytes := [len / 256 % 256, len % 256]
  let targetSize := ((20 + len + 511) / 512) * 512
  let padLen := targetSize - (20 + len)
  0xAA :: flags :: (destination ++ (lengthBytes ++ (payload ++ (List.range padLen).map padRnd)))

/-- AORPTransport.encryptLayer: ephemeral-static ECDH followed by
AES-GCM, serialised as [ephKeyLen (1 byte), ephemeral public key,
12-byte IV, ciphertext]. -/
def encryptLayer (ec : ECProvider) (nodePub : List Nat) (ephPriv : Nat) (iv : List Nat) (data : List Nat) : List Nat :=
  let ephPub := ec.pub ephPriv
  let shared := ec.dh ephPriv nodePub
  let ct := ec.aesEnc shared iv data
  ephPub.length :: (ephPub ++ (iv ++ ct))

/-- AORPTransport.decryptLayer: parses the layer header and decrypts;
every failure path of the source (length sanity check, ephemeral key
length check, AEAD authentication failure) is none. -/
def decryptLayer (ec : ECProvider) (myPriv : Nat) (data : List Nat) : Option (List Nat) :=
  if data.length < 1 + 65 + 12 then none
  else
    let keyLen := data.headD 0
    if keyLen > 100 ∨ 1 + keyLen > data.length then none
    else
      let ephKey := (data.drop 1).take keyLen
      let iv := (data.drop (1 + keyLen)).take 12
      let ct := data.drop (1 + keyLen + 12)
      ec.aesDec (ec.dh myPriv ephKey) iv ct

/-- The recursion underlying AORPTransport.encryptOnion.  The source
loops i from nodes.length - 1 down to 0 and, before encrypting for
node i with i > 0, prepends the 32-byte padded id of nodes[i-1] (the
node's predecessor in the circuit).  Here prevId carries that
predecessor id; the randomness list rs supplies one (ephemeral key,
IV) pair per layer. -/
def encryptOnionGo (ec : ECProvider) (prevId : Option (List Nat)) (rs : List (Nat × List Nat)) (nodes : List AORPNode) (data : List Nat) : List Nat :=
  match nodes with
  | [] => data
  | n :: rest =>
    let r := rs.headD (0, List.replicate 12 0)
    let inner := encryptOnionGo ec (some n.id) rs.tail rest data
    let body :=
      match prevId with
      | some pid => padTo 32 pid ++ inner
      | none => inner
    encryptLayer ec n.publicKey r.1 r.2 body

/-- AORPTransport.encryptOnion: wrap data in one layer per circuit
node; the outermost layer (node 0) carries no routing prepend. -/
def encryptOnion (ec : ECProvider) (rs : List (Nat × List Nat)) (nodes : List AORPNode) (data : List Nat) : List Nat :=
  encryptOnionGo ec none rs nodes data

/-- AORPTransport.removePadding: read the big-endian 16-bit length at
bytes 18..19 and slice the payload out; out-of-range lengths fall back
to everything after the 20-byte header. -/
def removePadding (data : List Nat) : List Nat :=
  if data.length < 20 then data
  else
    let payloadLength := (data.getD 18 0) <<< 8 ||| data.getD 19 0
    if payloadLength = 0 ∨ payloadLength > data.length - 20 then data.drop 20
    else (data.drop 20).take payloadLength

/-- AORPTransport.isForMe: magic must be 0xAA and the 16 destination
bytes (data[2..17]) are compared against a repeating slice of the first
16 bytes of this node's peer id.  An empty id makes every comparison
fail (in the source, indexing by i % 0 yields undefined). -/
def isForMe (myId : List Nat) (data : List Nat) : Bool :=
  if data.length < 18 then false
  else if data.getD 0 0 != 0xAA then false
  else
    let destination := (data.drop 2).take 16
    let slice := myId.take 16
    if slice.length = 0 then false
    else (List.range 16).all fun i => destination.getD i 0 == slice.getD (i % slice.length) 0

/-- AORPTransport.isCoverTraffic: leading byte 0xFF. -/
def isCoverTraffic (data : List Nat) : Bool :=
  data.getD 0 0 == 0xFF

/-- ASCII whitespace, for the byte-level model of String.trim. -/
def isWhitespaceByte (b : Nat) : Bool :=
  b == 32 || b == 9 || b == 10 || b == 13 || b == 11 || b == 12

/-- Byte-level model of String.trim on ASCII data. -/
def trimBytes (l : List Nat) : List Nat :=
  ((l.dropWhile isWhitespaceByte).reverse.dropWhile isWhitespaceByte).reverse

/-- AORPTransport.extractNextHop: requires at least 50 bytes and bit 0
of the flags byte data[1]; the candidate id is bytes 18..49, with every
NUL byte removed (replace of the NUL global regexp) and whitespace
trimmed; an empty result is null. -/
def extractNextHop (data : List Nat) : Option (List Nat) :=
  if data.length < 50 then none
  else if ((data.getD 1 0) &&& 1) == 0 then none
  else
    let nextHopBytes := (data.drop 18).take 32
    let nextHopId := trimBytes (nextHopBytes.filter fun b => b != 0)
    if nextHopId.length = 0 then none else some nextHopId

/-- Observable outcome of handling one inbound onion packet. -/
inductive RouterAction where
  | dropped
  | delivered (payload : List Nat)
  | forwarded (frame : List Nat) (nextHop : List Nat)
deriving DecidableEq

/-- AORPTransport.handleOnionPacket, with a registered message
callback: peel one layer; on decryption failure the catch block only
logs, so the packet is dropped; a frame for this node is delivered
after removePadding unless it is cover traffic; otherwise the *entire*
peeled cleartext is handed to sendToNextHop for the extracted hop. -/
def handleOnionPacket (ec : ECProvider) (myPriv : Nat) (myId : List Nat) (data : List Nat) : RouterAction :=
  match decryptLayer ec myPriv data with
  | none => .dropped
  | some decrypted =>
    if isForMe myId decrypted then
      if isCoverTraffic decrypted then .dropped
      else .delivered (removePadding decrypted)
    else
      match extractNextHop decrypted with
      | some nextHop => .forwarded decrypted nextHop
      | none => .dropped

/-- RTCDataChannel.readyState values. -/
inductive ChannelState where
  | connecting
  | opened
  | closing
  | closed
deriving DecidableEq

/-- AORPTransport.sendToNextHop: look up the peer's data channel; only
an existing channel in the open state transmits; otherwise the method
returns silently having sent nothing.  The result is the list of
(peer, frame) emissions to the substrate. -/
def sendToNextHop (channels : List (List Nat × ChannelState)) (data : List Nat) (peerId : List Nat) : List (List Nat × List Nat) :=
  match channels.find? fun c => c.1 == peerId with
  | some c => if c.2 = ChannelState.opened then [(peerId, data)] else []
  | none => []

/-- AORPTransport.send: take the first cached circuit (error when none
exists), build the inner AORP frame, wrap the onion, and hand it to
sendToNextHop for the circuit's first node. -/
def sendAORP (ec : ECProvider) (rs : List (Nat × List Nat)) (channels : List (List Nat × ChannelState)) (circuits : List Circuit) (payload : List Nat) (padRnd : Nat → Nat) : Except String (List (List Nat × List Nat)) :=
  match circuits.head? with
  | none => .error ("No hay circuitos disponibles")
  | some circuit =>
    let aorpPacket := buildAORPPacket payload circuit.nodes padRnd
    let onionPacket := encryptOnion ec rs circuit.nodes aorpPacket
    .ok (sendToNextHop channels onionPacket (circuit.nodes.headD ⟨[], [], 0⟩).id)

/-- createTaiorWasm.send in src/lib/taior.ts: the underlying WASM send
either returns the outbound packet or throws; the catch block logs the
error and returns the caller's plaintext payload unchanged. -/
def taiorWasmSend (wasmSend : List Nat → Except String (List Nat)) (payload : List Nat) : List Nat :=
  match wasmSend payload with
  | .ok result => result
  | .error _ => payload

/-- The isZeroKey predicate local to AORPTransport.buildCircuit: only a
32-byte all-zero buffer counts as a zero key. -/
def isZeroKey (k : List Nat) : Bool :=
  k.length == 32 && k.all fun b => b == 0

/-- The hop-selection loop of AORPTransport.buildCircuit.  Each
iteration filters out already-used ids and picks one element of the
remaining candidates; both source branches (the WASM decideNextHop hook
with its find-or-first fallback, and Math.random) return some element
of candidates, modelled by the index oracle rnd. -/
def pickLoop (rnd : Nat → Nat) (available : List AORPNode) : List (List Nat) → Nat → Nat → List AORPNode
  | _, _, 0 => []
  | used, i, remaining + 1 =>
    let candidates := available.filter fun n => !(used.contains n.id)
    if candidates.length = 0 then []
    else
      let sel := candidates.getD (rnd i % candidates.length) ⟨[], [], 0⟩
      sel :: pickLoop rnd available (sel.id :: used) (i + 1) remaining

/-- AORPTransport.buildCircuit: filter known nodes by the 60 s
staleness window and the non-zero-key check, select targetHops hops
without id reuse, and stamp the circuit with 16 fresh random id bytes
(oracle idRnd) and the 600000 ms TTL. -/
def buildCircuit (knownNodes : List AORPNode) (now : Nat) (rnd : Nat → Nat) (idRnd : Nat → Nat) (targetHops : Nat) : Option Circuit :=
  let available := knownNodes.filter fun n => now - n.lastSeen < 60000 && !isZeroKey n.publicKey
  if available.length < targetHops then none
  else
    let selectedNodes := pickLoop rnd available [] 0 targetHops
    if selectedNodes.length < targetHops then none
    else some { id := (List.range 16).map idRnd, nodes := selectedNodes, createdAt := now, ttl := 600000 }

/-- The size computed by AORPTransport.sendCoverTraffic:
512 + Math.floor(Math.random() * 1536); the Math.random outcome floor
is exactly one of 0..1535, modelled by Fin 1536. -/
def sendCoverSize (r : Fin 1536) : Nat :=
  512 + r.val

/-- The cover frame built by AORPTransport.sendCoverTraffic: byte 0 is
0xFF and the remaining size - 1 bytes come from the randomness
oracle. -/
def sendCoverFrame (r : Fin 1536) (rnd : Nat → Nat) : List Nat :=
  0xFF :: (List.range (sendCoverSize r - 1)).map rnd

/-- Peeling as it must happen from hop 1 onwards for the frames the
source's encryptOnion produces: decrypt one layer, then strip the
32-byte prepended id field, repeating per remaining hop key. -/
def peelTail (ec : ECProvider) : List Nat → List Nat → Option (List Nat)
  | [], d => some d
  | p :: rest, d => (decryptLayer ec p d).bind fun x => peelTail ec rest (x.drop 32)

/-- Peeling an origination-produced onion in circuit order: the
outermost layer (hop 0) peels to the next layer directly, every later
layer peels to a 32-byte id field plus the remaining body. -/
def codePeelSequence (ec : ECProvider) : List Nat → List Nat → Option (List Nat)
  | [], d => some d
  | p :: rest, d => (decryptLayer ec p d).bind fun x => peelTail ec rest x

/-- The peel procedure asserted by the specification: peel in circuit
order and strip the 32-byte field at every non-terminal hop (so the
terminal hop's peel is used as-is). -/
def specPeelSequence (ec : ECProvider) : List Nat → List Nat → Option (List Nat)
  | [], d => some d
  | [p], d => decryptLayer ec p d
  | p :: q :: rest, d => (decryptLayer ec p d).bind fun x => specPeelSequence ec (q :: rest) (x.drop 32)

/-! Concrete data used to evaluate the pipeline on explicit inputs. -/

/-- Constant-zero randomness oracle. -/
def rnd0 : Nat → Nat := fun _ => 0

/-- Constant-nine randomness oracle (padding bytes). -/
def rnd9 : Nat → Nat := fun _ => 9

/-- Concrete circuit member with id "n0" and the static key of private
scalar 2. -/
def demoNodeA : AORPNode := ⟨[110, 48], demoEC.pub 2, 0⟩

/-- Concrete circuit member with id "n1" and the static key of private
scalar 3. -/
def demoNodeB : AORPNode := ⟨[110, 49], demoEC.pub 3, 0⟩

/-- Concrete circuit member with id "n2" and the static key of private
scalar 5. -/
def demoNodeC : AORPNode := ⟨[110, 50], demoEC.pub 5, 0⟩

/-- A concrete 3-hop circuit. -/
def demoCircuitNodes : List AORPNode := [demoNodeA, demoNodeB, demoNodeC]

/-- One (ephemeral key, IV) pair per layer. -/
def demoRands : List (Nat × List Nat) :=
  [(11, List.replicate 12 1), (13, List.replicate 12 2), (17, List.replicate 12 3)]

/-- The inner AORP frame for payload "hi" over the concrete circuit. -/
def demoFrame : List Nat := buildAORPPacket [104, 105] demoCircuitNodes rnd9

/-- The fully wrapped onion for demoFrame. -/
def demoOnion : List Nat := encryptOnion demoEC demoRands demoCircuitNodes demoFrame

/-- A peeled routing cleartext: flags byte 1, a 32-byte id field of
0x42 bytes at offsets 18..49, 60 bytes total. -/
def demoCleartext : List Nat :=
  [0, 1] ++ List.replicate 16 0 ++ List.replicate 32 66 ++ List.replicate 10 7

/-- A single valid onion layer around the bytes [1, 2, 3]. -/
def demoEncLayer : List Nat :=
  encryptLayer demoEC (demoEC.pub 2) 3 (List.replicate 12 0) [1, 2, 3]

/-- demoEncLayer with one ciphertext byte altered (the AEAD tag
position), simulating in-flight tampering. -/
def demoTampered : List Nat :=
  demoEncLayer.take 78 ++ [demoEncLayer.getD 78 0 + 1] ++ demoEncLayer.drop 79

/-- Three known nodes with fresh last-seen stamps and non-zero 32-byte
keys. -/
def demoKnownNodes : List AORPNode :=
  [⟨[1], List.replicate 32 1, 0⟩, ⟨[2], List.replicate 32 1, 0⟩, ⟨[3], List.replicate 32 1, 0⟩]

/-- Three known nodes whose public keys are 31 zero bytes: every byte
is zero, yet isZeroKey is false because the length is not 32. -/
def demoZeroKeyNodes : List AORPNode :=
  [⟨[1], List.replicate 31 0, 0⟩, ⟨[2], List.replicate 31 0, 0⟩, ⟨[3], List.replicate 31 0, 0⟩]

/-- The circuit buildCircuit produces from demoKnownNodes with the
constant-zero oracles. -/
def demoBuiltCircuit : Circuit :=
  ⟨List.replicate 16 0, demoKnownNodes, 0, 600000⟩

/-- A 16-byte peer id. -/
def demoLongId : List Nat := (List.range 16).map fun i => i + 1

/-- Circuit whose terminal node has the 2-byte id "ab". -/
def demoShortIdNodes : List AORPNode :=
  [demoNodeA, demoNodeB, ⟨[97, 98], demoEC.pub 5, 0⟩]

/-- Circuit whose terminal node has the 16-byte id demoLongId. -/
def demoLongIdNodes : List AORPNode :=
  [demoNodeA, demoNodeB, ⟨demoLongId, demoEC.pub 5, 0⟩]

/-- Single-node circuit whose destination id is 17 bytes of 0x41,
longer than the 16-byte destination field. -/
def demoLongDestNodes : List AORPNode :=
  [⟨List.replicate 17 65, List.replicate 32 1, 0⟩]

/-- A data-channel table whose only channel (to peer [9]) is closed. -/
def demoChannels : List (List Nat × ChannelState) := [([9], ChannelState.closed)]

/-- A cached circuit whose first hop is peer [9]. -/
def demoClosedHopCircuit : Circuit :=
  ⟨List.replicate 16 0, [⟨[9], demoEC.pub 2, 0⟩, ⟨[8], demoEC.pub 3, 0⟩, ⟨[7], demoEC.pub 5, 0⟩], 0, 600000⟩

/-! Helper lemmas. -/

/-- padTo always produces exactly n bytes. -/
theorem padTo_length (n : Nat) (l : List Nat) : (padTo n l).length = n := by
  simp only [padTo, List.length_append, List.length_take, List.length_replicate]
  omega

/-- Dropping the 32-byte padded id field recovers the appended body. -/
theorem padTo_append_drop (pid y : List Nat) : (padTo 32 pid ++ y).drop 32 = y :=
  List.drop_left' (padTo_length 32 pid)

/-- Recombining a high byte shifted left by 8 with a low byte below 256
is plain arithmetic. -/
theorem lor_byte_eq (hi lo : Nat) (h : lo < 256) : hi <<< 8 ||| lo = 256 * hi + lo := by
  have h' : lo < 2 ^ 8 := by simpa using h
  rw [Nat.shiftLeft_eq, Nat.mul_comm hi (2 ^ 8), ← Nat.mul_add_lt_is_or h' hi]

/-- getD at an in-range index is a member of the list. -/
theorem getD_mem_of_lt {α : Type} (l : List α) : ∀ (n : Nat) (d : α), n < l.length → l.getD n d ∈ l := by
  induction l with
  | nil =>
    intro n d h
    simp at h
  | cons a t ih =>
    intro n d h
    cases n with
    | zero => simp
    | succ m =>
      simp only [List.getD_cons_succ]
      exact List.mem_cons_of_mem a (ih m d (by simpa using h))

/-- The explicit cons/append shape of the frame buildAORPPacket emits. -/
theorem buildAORPPacket_eq (payload : List Nat) (nodes : List AORPNode) (padRnd : Nat → Nat) :
    buildAORPPacket payload nodes padRnd
      = 0xAA :: (if nodes.length > 1 then 1 else 0) ::
        (padTo 16 (nodes.getLastD ⟨[], [], 0⟩).id ++
          ([payload.length / 256 % 256, payload.length % 256] ++
            (payload ++ (List.range (((20 + payload.length + 511) / 512) * 512 - (20 + payload.length))).map padRnd))) := rfl

/-- Reading byte 18 through two leading cons cells. -/
theorem getD_cons_cons_18 (a b : Nat) (t : List Nat) : (a :: b :: t).getD 18 0 = t.getD 16 0 := rfl

/-- Reading byte 19 through two leading cons cells. -/
theorem getD_cons_cons_19 (a b : Nat) (t : List Nat) : (a :: b :: t).getD 19 0 = t.getD 17 0 := rfl

/-- Dropping the 20-byte header through two leading cons cells. -/
theorem drop20_cons_cons (a b : Nat) (t : List Nat) : (a :: b :: t).drop 20 = t.drop 18 := rfl

/-- Dropping the two leading header bytes. -/
theorem drop2_cons_cons (a b : Nat) (t : List Nat) : (a :: b :: t).drop 2 = t := rfl

/-- The emitted frame's total size is the 512-byte ceiling of header
plus payload. -/
theorem buildAORPPacket_length (payload : List Nat) (nodes : List AORPNode) (padRnd : Nat → Nat) :
    (buildAORPPacket payload nodes padRnd).length = ((20 + payload.length + 511) / 512) * 512 := by
  rw [buildAORPPacket_eq]
  simp only [List.length_cons, List.length_append, padTo_length, List.length_map,
    List.length_range, List.length_nil]
  omega

/-- Byte 18 of the emitted frame is the high length byte. -/
theorem buildAORPPacket_getD18 (payload : List Nat) (nodes : List AORPNode) (padRnd : Nat → Nat) :
    (buildAORPPacket payload nodes padRnd).getD 18 0 = payload.length / 256 % 256 := by
  rw [buildAORPPacket_eq, getD_cons_cons_18]
  rw [List.getD_append_right _ _ _ _ (le_of_eq (padTo_length 16 _))]
  rw [padTo_length]
  rfl

/-- Byte 19 of the emitted frame is the low length byte. -/
theorem buildAORPPacket_getD19 (payload : List Nat) (nodes : List AORPNode) (padRnd : Nat → Nat) :
    (buildAORPPacket payload nodes padRnd).getD 19 0 = payload.length % 256 := by
  rw [buildAORPPacket_eq, getD_cons_cons_19]
  rw [List.getD_append_right _ _ _ _ (by rw [padTo_length]; omega)]
  rw [padTo_length]
  rfl

/-- Dropping the 20-byte header of the emitted frame leaves payload and
padding. -/
theorem buildAORPPacket_drop20 (payload : List Nat) (nodes : List AORPNode) (padRnd : Nat → Nat) :
    (buildAORPPacket payload nodes padRnd).drop 20
      = payload ++ (List.range (((20 + payload.length + 511) / 512) * 512 - (20 + payload.length))).map padRnd := by
  rw [buildAORPPacket_eq, drop20_cons_cons, ← List.append_assoc]
  exact List.drop_left' (by simp [padTo_length])

/-- removePadding inverts buildAORPPacket for payload sizes the 16-bit
length field can represent (and at least 1, since a zero length field
makes removePadding return the padding instead). -/
theorem removePadding_buildAORPPacket (payload : List Nat) (nodes : List AORPNode) (padRnd : Nat → Nat)
    (hp1 : 1 ≤ payload.length) (hp2 : payload.length ≤ 65535) :
    removePadding (buildAORPPacket payload nodes padRnd) = payload := by
  have hL := buildAORPPacket_length payload nodes padRnd
  have harith : 20 + payload.length ≤ ((20 + payload.length + 511) / 512) * 512 := by omega
  have hlen : (buildAORPPacket payload nodes padRnd).getD 18 0 <<< 8
      ||| (buildAORPPacket payload nodes padRnd).getD 19 0 = payload.length := by
    rw [buildAORPPacket_getD18, buildAORPPacket_getD19,
      lor_byte_eq _ _ (Nat.mod_lt _ (by norm_num))]
    omega
  unfold removePadding
  rw [if_neg (by rw [hL]; omega)]
  rw [if_neg (by rw [hlen, hL]; omega)]
  rw [hlen, buildAORPPacket_drop20]
  exact List.take_left' rfl

/-- Decrypting a layer with the static key whose public half encrypted
it recovers the plaintext (for the 12-byte IVs the source always
generates). -/
theorem decryptLayer_encryptLayer (ec : ECProvider) (p e : Nat) (iv d : List Nat)
    (hiv : iv.length = 12) :
    decryptLayer ec p (encryptLayer ec (ec.pub p) e iv d) = some d := by
  have hpl : (ec.pub e).length = 65 := ec.pub_length e
  have hform : encryptLayer ec (ec.pub p) e iv d
      = (ec.pub e).length :: (ec.pub e ++ (iv ++ ec.aesEnc (ec.dh e (ec.pub p)) iv d)) := rfl
  rw [hform, hpl]
  have hlen2 : (ec.pub e ++ (iv ++ ec.aesEnc (ec.dh e (ec.pub p)) iv d)).length
      = 77 + (ec.aesEnc (ec.dh e (ec.pub p)) iv d).length := by
    simp [hpl, hiv]
    omega
  unfold decryptLayer
  rw [if_neg (by simp only [List.length_cons, hlen2]; omega)]
  rw [if_neg (by simp only [List.headD_cons, List.length_cons, hlen2]; omega)]
  have e1 : ((65 :: (ec.pub e ++ (iv ++ ec.aesEnc (ec.dh e (ec.pub p)) iv d))).drop 1)
      = ec.pub e ++ (iv ++ ec.aesEnc (ec.dh e (ec.pub p)) iv d) := rfl
  simp only [List.headD_cons]
  rw [e1]
  have e2 : ((65 :: (ec.pub e ++ (iv ++ ec.aesEnc (ec.dh e (ec.pub p)) iv d))).drop (1 + 65))
      = iv ++ ec.aesEnc (ec.dh e (ec.pub p)) iv d := by
    show ((ec.pub e ++ (iv ++ ec.aesEnc (ec.dh e (ec.pub p)) iv d)).drop 65) = _
    exact List.drop_left' hpl
  have e3 : ((65 :: (ec.pub e ++ (iv ++ ec.aesEnc (ec.dh e (ec.pub p)) iv d))).drop (1 + 65 + 12))
      = ec.aesEnc (ec.dh e (ec.pub p)) iv d := by
    show ((ec.pub e ++ (iv ++ ec.aesEnc (ec.dh e (ec.pub p)) iv d)).drop 77) = _
    rw [← List.append_assoc]
    exact List.drop_left' (by simp [hpl, hiv])
  rw [e2, e3, List.take_left' hpl, List.take_left' hiv]
  rw [ec.dh_comm p e]
  exact ec.aes_dec_enc _ iv d

/-- From hop 1 onwards, peel-then-strip inverts the layering that
encryptOnionGo performs once a predecessor id is being prepended. -/
theorem peelTail_encryptOnionGo (ec : ECProvider) {nodes : List AORPNode} {privs : List Nat}
    (hkeys : List.Forall₂ (fun n p => n.publicKey = ec.pub p) nodes privs) :
    ∀ (rs : List (Nat × List Nat)) (pid data : List Nat),
      (∀ r ∈ rs, (r.2 : List Nat).length = 12) →
      peelTail ec privs (encryptOnionGo ec (some pid) rs nodes data) = some data := by
  induction hkeys with
  | nil =>
    intro rs pid data _
    simp [encryptOnionGo, peelTail]
  | @cons n p ns ps hnp htail ih =>
    intro rs pid data hiv
    have h12 : (rs.headD (0, List.replicate 12 0)).2.length = 12 := by
      cases rs with
      | nil => simp
      | cons a t => exact hiv a (List.mem_cons_self a t)
    have htl : ∀ r ∈ rs.tail, (r.2 : List Nat).length = 12 := by
      intro r hr
      cases rs with
      | nil => simp at hr
      | cons a t => exact hiv r (List.mem_cons_of_mem a hr)
    have hform : encryptOnionGo ec (some pid) rs (n :: ns) data
        = encryptLayer ec n.publicKey (rs.headD (0, List.replicate 12 0)).1
            (rs.headD (0, List.replicate 12 0)).2
            (padTo 32 pid ++ encryptOnionGo ec (some n.id) rs.tail ns data) := rfl
    have hpt : ∀ X, peelTail ec (p :: ps) X
        = (decryptLayer ec p X).bind fun x => peelTail ec ps (x.drop 32) := fun _ => rfl
    rw [hform, hnp, hpt, decryptLayer_encryptLayer ec p _ _ _ h12]
    show peelTail ec ps ((padTo 32 pid ++ encryptOnionGo ec (some n.id) rs.tail ns data).drop 32) = some data
    rw [padTo_append_drop]
    exact ih rs.tail n.id data htl

/-- Reduction of handleOnionPacket once the peel result is known. -/
theorem handleOnionPacket_decrypt_some (ec : ECProvider) (myPriv : Nat) (myId data dec : List Nat)
    (h : decryptLayer ec myPriv data = some dec) :
    handleOnionPacket ec myPriv myId data
      = if isForMe myId dec then
          (if isCoverTraffic dec then .dropped else .delivered (removePadding dec))
        else
          (match extractNextHop dec with
           | some nextHop => RouterAction.forwarded dec nextHop
           | none => RouterAction.dropped) := by
  unfold handleOnionPacket
  rw [h]

/-! Claim theorems. -/

/-- C1: the claim demands that a send failure surfaces as an error and
the plaintext payload is never substituted for the outbound packet.
The wasm client's send in src/lib/taior.ts does the opposite: its catch
block returns the plaintext payload whenever the underlying send
throws.  This theorem evaluates the code on such a failing input. -/
theorem taiorWasmSend_plaintext_fallback :
    taiorWasmSend (fun _ => .error ("wasm send raised")) [1, 2, 3] = [1, 2, 3] := rfl

/-- C2 (amended): the round trip that actually holds for the source's
layering.  The outermost layer peels to the next layer with no 32-byte
field; every later layer peels to a 32-byte id field (holding the
predecessor's id) followed by the wrapped body, so peeling from hop 1
onwards strips 32 bytes after each peel; the terminal peel-and-strip
yields the inner AORP frame, and removePadding recovers the payload for
1 ≤ length ≤ 65535. -/
theorem onion_round_trip (ec : ECProvider) (payload : List Nat) (nodes : List AORPNode)
    (privs : List Nat) (rs : List (Nat × List Nat)) (padRnd : Nat → Nat)
    (hn : 3 ≤ nodes.length)
    (hkeys : List.Forall₂ (fun n p => n.publicKey = ec.pub p) nodes privs)
    (hiv : ∀ r ∈ rs, (r.2 : List Nat).length = 12)
    (hp1 : 1 ≤ payload.length) (hp2 : payload.length ≤ 65535) :
    codePeelSequence ec privs (encryptOnion ec rs nodes (buildAORPPacket payload nodes padRnd))
      = some (buildAORPPacket payload nodes padRnd)
    ∧ removePadding (buildAORPPacket payload nodes padRnd) = payload := by
  refine ⟨?_, removePadding_buildAORPPacket payload nodes padRnd hp1 hp2⟩
  cases hkeys with
  | nil => simp at hn
  | @cons n p ns ps hnp htail =>
    have h12 : (rs.headD (0, List.replicate 12 0)).2.length = 12 := by
      cases rs with
      | nil => simp
      | cons a t => exact hiv a (List.mem_cons_self a t)
    have htl : ∀ r ∈ rs.tail, (r.2 : List Nat).length = 12 := by
      intro r hr
      cases rs with
      | nil => simp at hr
      | cons a t => exact hiv r (List.mem_cons_of_mem a hr)
    have hform : encryptOnion ec rs (n :: ns) (buildAORPPacket payload (n :: ns) padRnd)
        = encryptLayer ec n.publicKey (rs.headD (0, List.replicate 12 0)).1
            (rs.headD (0, List.replicate 12 0)).2
            (encryptOnionGo ec (some n.id) rs.tail ns (buildAORPPacket payload (n :: ns) padRnd)) := rfl
    have hcps : ∀ X, codePeelSequence ec (p :: ps) X
        = (decryptLayer ec p X).bind fun x => peelTail ec ps x := fun _ => rfl
    rw [hform, hnp, hcps, decryptLayer_encryptLayer ec p _ _ _ h12]
    exact peelTail_encryptOnionGo ec htail rs.tail n.id _ htl

/-- Witness for the amended C2 round trip on the concrete 3-hop
circuit. -/
theorem onion_round_trip_witness :
    codePeelSequence demoEC [2, 3, 5] demoOnion = some demoFrame
    ∧ removePadding demoFrame = [104, 105] :=
  onion_round_trip demoEC [104, 105] demoCircuitNodes [2, 3, 5] demoRands rnd9
    (by decide)
    (List.Forall₂.cons rfl (List.Forall₂.cons rfl (List.Forall₂.cons rfl List.Forall₂.nil)))
    (by decide) (by decide) (by decide)

/-- Counterexample to C2 as stated: the peel procedure of the claim
(strip the 32-byte field at every non-terminal hop, use the terminal
peel as-is) does not recover the frame from the onion the source
builds — on the concrete circuit it aborts with a decryption
failure. -/
theorem specPeelSequence_fails_on_source_onion :
    specPeelSequence demoEC [2, 3, 5] demoOnion = none := by decide

/-- C3 (amended): at an intermediate hop, the frame handed to
sendToNextHop is the entire peeled cleartext, byte-identical and not
re-encrypted — the 32-byte next-hop field is NOT removed before
forwarding. -/
theorem forwarded_frame_is_full_cleartext (ec : ECProvider) (p e : Nat) (iv : List Nat)
    (hiv : iv.length = 12) (myId cleartext nextHop : List Nat)
    (hme : isForMe myId cleartext = false)
    (hext : extractNextHop cleartext = some nextHop) :
    handleOnionPacket ec p myId (encryptLayer ec (ec.pub p) e iv cleartext)
      = RouterAction.forwarded cleartext nextHop := by
  rw [handleOnionPacket_decrypt_some ec p myId _ cleartext
    (decryptLayer_encryptLayer ec p e iv cleartext hiv)]
  rw [hme, hext]
  rfl

/-- Witness for the amended C3 on a concrete onion layer. -/
theorem forwarded_frame_is_full_cleartext_witness :
    handleOnionPacket demoEC 2 [109]
        (encryptLayer demoEC (demoEC.pub 2) 3 (List.replicate 12 0) demoCleartext)
      = RouterAction.forwarded demoCleartext (List.replicate 32 66) :=
  forwarded_frame_is_full_cleartext demoEC 2 3 (List.replicate 12 0) (by decide)
    [109] demoCleartext (List.replicate 32 66) (by decide) (by decide)

/-- Counterexample to C3 as stated: the claim says the forwarded frame
is the peeled cleartext with its first 32 bytes removed; the code
forwards the full cleartext, which differs from its own 32-byte
suffix. -/
theorem forwarded_frame_keeps_leading_field :
    handleOnionPacket demoEC 5 [109]
        (encryptLayer demoEC (demoEC.pub 5) 7 (List.replicate 12 0) demoCleartext)
      = RouterAction.forwarded demoCleartext (List.replicate 32 66)
    ∧ demoCleartext ≠ demoCleartext.drop 32 := by decide

/-- C4 (amended): extractNextHop never looks at the leading 32-byte
field: it requires at least 50 bytes and bit 0 of byte 1, and takes the
id from bytes 18..49.  Consequently, for an origination-produced layer
cleartext (32-byte padded id then body) whose byte 1 has bit 0 clear,
no next hop is extracted at all and the packet is dropped. -/
theorem extractNextHop_originated_even_flag (id body : List Nat)
    (h : ((padTo 32 id).getD 1 0) &&& 1 = 0) :
    extractNextHop (padTo 32 id ++ body) = none := by
  unfold extractNextHop
  by_cases hl : (padTo 32 id ++ body).length < 50
  · rw [if_pos hl]
  · rw [if_neg hl]
    have hg : (padTo 32 id ++ body).getD 1 0 = (padTo 32 id).getD 1 0 :=
      List.getD_append _ _ _ _ (by rw [padTo_length]; omega)
    rw [if_pos (by rw [hg, h]; rfl)]

/-- Witness for the amended C4: the id "n0" has second byte 0x30, so
the flag test fails and extraction returns none. -/
theorem extractNextHop_originated_even_flag_witness :
    extractNextHop (padTo 32 [110, 48] ++ List.replicate 20 66) = none :=
  extractNextHop_originated_even_flag [110, 48] (List.replicate 20 66) (by decide)

/-- Counterexample to C4 as stated: the claim says the next hop is the
leading 32-byte field with trailing NULs trimmed (here the id [110,
49]); the code instead reads bytes 18..49 and returns eighteen 0x42
bytes taken from the body. -/
theorem extractNextHop_reads_bytes_18_to_49 :
    extractNextHop (padTo 32 [110, 49] ++ List.replicate 20 66) = some (List.replicate 18 66)
    ∧ List.replicate 18 66 ≠ [110, 49] := by decide

/-- C5: an inbound onion packet whose layer fails to authenticate or
parse is dropped: no delivery, no forwarding. -/
theorem undecryptable_packet_dropped (ec : ECProvider) (myPriv : Nat) (myId data : List Nat)
    (h : decryptLayer ec myPriv data = none) :
    handleOnionPacket ec myPriv myId data = RouterAction.dropped := by
  unfold handleOnionPacket
  rw [h]

/-- Witness for C5: a valid layer with its AEAD tag byte altered fails
to decrypt and is dropped. -/
theorem undecryptable_packet_dropped_witness :
    decryptLayer demoEC 2 demoTampered = none
    ∧ handleOnionPacket demoEC 2 [109] demoTampered = RouterAction.dropped :=
  ⟨by decide, undecryptable_packet_dropped demoEC 2 [109] demoTampered (by decide)⟩

/-- Soundness of the hop-selection loop: every selected node comes from
the candidate pool and was not previously used, the selected ids are
pairwise distinct, and at most the requested number of hops is
selected. -/
theorem pickLoop_sound (rnd : Nat → Nat) (available : List AORPNode) :
    ∀ (remaining : Nat) (used : List (List Nat)) (i : Nat),
      (∀ n ∈ pickLoop rnd available used i remaining, n ∈ available ∧ used.contains n.id = false)
      ∧ ((pickLoop rnd available used i remaining).map (fun n => n.id)).Nodup
      ∧ (pickLoop rnd available used i remaining).length ≤ remaining := by
  intro remaining
  induction remaining with
  | zero =>
    intro used i
    simp [pickLoop]
  | succ m ih =>
    intro used i
    by_cases hc : (available.filter fun n => !(used.contains n.id)).length = 0
    · simp only [pickLoop, hc, if_pos]
      simp
    · simp only [pickLoop, hc, if_neg, ite_false]
      have hlt : rnd i % (available.filter fun n => !(used.contains n.id)).length
          < (available.filter fun n => !(used.contains n.id)).length :=
        Nat.mod_lt _ (Nat.pos_of_ne_zero hc)
      have hmem : (available.filter fun n => !(used.contains n.id)).getD
          (rnd i % (available.filter fun n => !(used.contains n.id)).length) ⟨[], [], 0⟩
          ∈ available.filter fun n => !(used.contains n.id) :=
        getD_mem_of_lt _ _ _ hlt
      have hselav := (List.mem_filter.mp hmem).1
      have hselused : used.contains ((available.filter fun n => !(used.contains n.id)).getD
          (rnd i % (available.filter fun n => !(used.contains n.id)).length) ⟨[], [], 0⟩).id = false := by
        have := (List.mem_filter.mp hmem).2
        simpa using this
      obtain ⟨ih1, ih2, ih3⟩ := ih (((available.filter fun n => !(used.contains n.id)).getD
          (rnd i % (available.filter fun n => !(used.contains n.id)).length) ⟨[], [], 0⟩).id :: used) (i + 1)
      refine ⟨?_, ?_, ?_⟩
      · intro n hn
        rcases List.mem_cons.mp hn with h | h
        · rw [h]
          exact ⟨hselav, hselused⟩
        · obtain ⟨ha, hb⟩ := ih1 n h
          refine ⟨ha, ?_⟩
          simp only [List.contains_cons, Bool.or_eq_false_iff] at hb
          exact hb.2
      · rw [List.map_cons]
        refine List.nodup_cons.mpr ⟨?_, ih2⟩
        intro hmem'
        obtain ⟨n, hn, hid⟩ := List.mem_map.mp hmem'
        have hb := (ih1 n hn).2
        simp only [List.contains_cons, Bool.or_eq_false_iff] at hb
        have := hb.1
        rw [hid] at this
        simp at this
      · simp only [List.length_cons]
        omega

/-- C6 (amended): every circuit buildCircuit returns for the manager's
targetHops = 3 request has pairwise distinct member ids, length 3
(within [3, 5]), members drawn from the known-node table that pass the
60-second staleness window and the isZeroKey filter (which only rejects
32-byte all-zero keys), and a 16-byte id from the randomness source. -/
theorem buildCircuit_invariants (knownNodes : List AORPNode) (now : Nat) (rnd idRnd : Nat → Nat)
    (c : Circuit) (h : buildCircuit knownNodes now rnd idRnd 3 = some c) :
    ((c.nodes.map fun n => n.id).Nodup)
    ∧ 3 ≤ c.nodes.length ∧ c.nodes.length ≤ 5
    ∧ (∀ n ∈ c.nodes, n ∈ knownNodes ∧ now - n.lastSeen < 60000 ∧ isZeroKey n.publicKey = false)
    ∧ c.id.length = 16 := by
  unfold buildCircuit at h
  by_cases h1 : (knownNodes.filter fun n => now - n.lastSeen < 60000 && !isZeroKey n.publicKey).length < 3
  · rw [if_pos h1] at h
    exact absurd h (by simp)
  · rw [if_neg h1] at h
    by_cases h2 : (pickLoop rnd (knownNodes.filter fun n => now - n.lastSeen < 60000 && !isZeroKey n.publicKey) [] 0 3).length < 3
    · rw [if_pos h2] at h
      exact absurd h (by simp)
    · rw [if_neg h2] at h
      obtain ⟨hmem, hnodup, hlen⟩ :=
        pickLoop_sound rnd (knownNodes.filter fun n => now - n.lastSeen < 60000 && !isZeroKey n.publicKey) 3 [] 0
      have hc : c = ⟨(List.range 16).map idRnd,
          pickLoop rnd (knownNodes.filter (fun n => now - n.lastSeen < 60000 && !isZeroKey n.publicKey)) [] 0 3,
          now, 600000⟩ := by
        injection h with h'
        exact h'.symm
      subst hc
      refine ⟨hnodup, by simpa using h2, by simp; omega, ?_, by simp⟩
      intro n hn
      have := (hmem n hn).1
      have hf := List.mem_filter.mp this
      refine ⟨hf.1, ?_, ?_⟩
      · have := hf.2
        simp only [Bool.and_eq_true, decide_eq_true_eq] at this
        exact this.1
      · have := hf.2
        simp only [Bool.and_eq_true, Bool.not_eq_true'] at this
        exact this.2

/-- Witness for the amended C6 on a concrete node table. -/
theorem buildCircuit_invariants_witness :
    buildCircuit demoKnownNodes 0 rnd0 rnd0 3 = some demoBuiltCircuit
    ∧ (((demoBuiltCircuit.nodes.map fun n => n.id).Nodup)
      ∧ 3 ≤ demoBuiltCircuit.nodes.length ∧ demoBuiltCircuit.nodes.length ≤ 5
      ∧ (∀ n ∈ demoBuiltCircuit.nodes,
          n ∈ demoKnownNodes ∧ 0 - n.lastSeen < 60000 ∧ isZeroKey n.publicKey = false)
      ∧ demoBuiltCircuit.id.length = 16) :=
  ⟨by decide, buildCircuit_invariants demoKnownNodes 0 rnd0 rnd0 demoBuiltCircuit (by decide)⟩

/-- Counterexample to C6 as stated: three stale-fresh nodes whose
public keys are 31 zero bytes pass the isZeroKey filter (it only
rejects length-32 buffers), so buildCircuit returns a circuit every
member of which has an all-zero public key. -/
theorem buildCircuit_accepts_allzero_short_key :
    (buildCircuit demoZeroKeyNodes 0 rnd0 rnd0 3).map
        (fun c => c.nodes.all fun n => n.publicKey.all fun b => b == 0)
      = some true := by decide

/-- C7 (amended): buildAORPPacket never fails: for every payload and
destination it emits a frame padded to a positive multiple of 512
bytes, whose 16-bit length field holds the payload length modulo 65536
and whose destination field is the id truncated to 16 bytes and
zero-padded. -/
theorem buildAORPPacket_total_truncating (payload : List Nat) (nodes : List AORPNode) (padRnd : Nat → Nat) :
    (buildAORPPacket payload nodes padRnd).length % 512 = 0
    ∧ 512 ≤ (buildAORPPacket payload nodes padRnd).length
    ∧ ((buildAORPPacket payload nodes padRnd).getD 18 0) <<< 8
        ||| ((buildAORPPacket payload nodes padRnd).getD 19 0) = payload.length % 65536
    ∧ ((buildAORPPacket payload nodes padRnd).drop 2).take 16
        = padTo 16 (nodes.getLastD ⟨[], [], 0⟩).id := by
  have hL := buildAORPPacket_length payload nodes padRnd
  refine ⟨by rw [hL]; omega, by rw [hL]; omega, ?_, ?_⟩
  · rw [buildAORPPacket_getD18, buildAORPPacket_getD19,
      lor_byte_eq _ _ (Nat.mod_lt _ (by norm_num))]
    omega
  · rw [buildAORPPacket_eq, drop2_cons_cons]
    exact List.take_left' (padTo_length 16 _)

/-- Counterexample to C7 as stated: the claim demands an error when the
destination id exceeds 16 bytes; with a 17-byte destination the code
emits a 512-byte frame whose destination field is the id truncated to
16 bytes. -/
theorem buildAORPPacket_no_error_on_long_destination :
    (buildAORPPacket [1] demoLongDestNodes rnd0).length = 512
    ∧ (buildAORPPacket [1] demoLongDestNodes rnd0).getD 0 0 = 0xAA
    ∧ ((buildAORPPacket [1] demoLongDestNodes rnd0).drop 2).take 16 = List.replicate 16 65 := by decide

/-- For a peer id of at least 16 bytes, a frame built for a destination
with the same 16-byte prefix passes the repeating-slice comparison of
isForMe (the repetition is invisible because the slice has full
length 16). -/
theorem isForMe_buildAORPPacket (myId payload : List Nat) (nodes : List AORPNode) (padRnd : Nat → Nat)
    (h16 : 16 ≤ myId.length)
    (hdest : (nodes.getLastD ⟨[], [], 0⟩).id.take 16 = myId.take 16) :
    isForMe myId (buildAORPPacket payload nodes padRnd) = true := by
  have hsl : (myId.take 16).length = 16 := by
    simp only [List.length_take]
    omega
  have hL := buildAORPPacket_length payload nodes padRnd
  have hdst : ((buildAORPPacket payload nodes padRnd).drop 2).take 16 = myId.take 16 := by
    rw [buildAORPPacket_eq, drop2_cons_cons, List.take_left' (padTo_length 16 _)]
    unfold padTo
    rw [hdest, hsl]
    simp
  have hmagic : (buildAORPPacket payload nodes padRnd).getD 0 0 = 0xAA := by
    rw [buildAORPPacket_eq]
    rfl
  unfold isForMe
  rw [if_neg (by rw [hL]; omega)]
  rw [if_neg (by rw [hmagic]; simp)]
  rw [if_neg (by rw [hsl]; omega)]
  rw [List.all_eq_true]
  intro i hi
  have hilt : i < 16 := List.mem_range.mp hi
  rw [hdst, hsl, Nat.mod_eq_of_lt hilt]
  simp

/-- C8 (amended): for a node whose peer id is at least 16 bytes long, a
peeled inner frame built by buildAORPPacket for a destination sharing
that 16-byte prefix is classified as addressed to this node and is
delivered with the padding stripped.  (For shorter ids the repeating
comparison of isForMe rejects the zero-padded destination the builder
writes, so such frames are never delivered — see the counterexample.) -/
theorem delivered_when_id_at_least_16 (ec : ECProvider) (p e : Nat) (iv : List Nat)
    (hiv : iv.length = 12) (myId payload : List Nat) (nodes : List AORPNode) (padRnd : Nat → Nat)
    (h16 : 16 ≤ myId.length)
    (hdest : (nodes.getLastD ⟨[], [], 0⟩).id.take 16 = myId.take 16)
    (hp1 : 1 ≤ payload.length) (hp2 : payload.length ≤ 65535) :
    handleOnionPacket ec p myId (encryptLayer ec (ec.pub p) e iv (buildAORPPacket payload nodes padRnd))
      = RouterAction.delivered payload := by
  rw [handleOnionPacket_decrypt_some ec p myId _ _
    (decryptLayer_encryptLayer ec p e iv _ hiv)]
  rw [isForMe_buildAORPPacket myId payload nodes padRnd h16 hdest]
  have hcov : isCoverTraffic (buildAORPPacket payload nodes padRnd) = false := rfl
  rw [hcov]
  simp only [if_true, if_false, Bool.false_eq_true, if_neg]
  rw [removePadding_buildAORPPacket payload nodes padRnd hp1 hp2]

/-- Witness for the amended C8 on a 16-byte peer id. -/
theorem delivered_when_id_at_least_16_witness :
    handleOnionPacket demoEC 5 demoLongId
        (encryptLayer demoEC (demoEC.pub 5) 7 (List.replicate 12 0)
          (buildAORPPacket [42] demoLongIdNodes rnd9))
      = RouterAction.delivered [42] :=
  delivered_when_id_at_least_16 demoEC 5 7 (List.replicate 12 0) (by decide)
    demoLongId [42] demoLongIdNodes rnd9 (by decide) (by decide) (by decide) (by decide)

/-- Counterexample to C8 as stated: for the 2-byte peer id "ab" the
claim says the zero-padded destination buildAORPPacket writes is
classified as addressed to this node; isForMe rejects it (the
repeating slice comparison expects the id to repeat, not zero
padding), and the frame is not delivered. -/
theorem isForMe_rejects_short_id :
    isForMe [97, 98] (buildAORPPacket [5] demoShortIdNodes rnd9) = false
    ∧ handleOnionPacket demoEC 5 [97, 98]
        (encryptLayer demoEC (demoEC.pub 5) 7 (List.replicate 12 0)
          (buildAORPPacket [5] demoShortIdNodes rnd9))
      ≠ RouterAction.delivered [5] := by decide

/-- C9 (amended): every cover frame has first byte 0xFF and total size
exactly 512 + r for the random draw r < 1536, hence within [512, 2047];
the maximum 2047 is attained, and 2048 is never produced. -/
theorem sendCoverFrame_spec :
    (∀ (r : Fin 1536) (rnd : Nat → Nat),
        (sendCoverFrame r rnd).getD 0 0 = 0xFF
        ∧ (sendCoverFrame r rnd).length = sendCoverSize r
        ∧ 512 ≤ sendCoverSize r ∧ sendCoverSize r ≤ 2047)
    ∧ (∃ r : Fin 1536, sendCoverSize r = 2047) := by
  constructor
  · intro r rnd
    refine ⟨rfl, ?_, ?_, ?_⟩
    · simp only [sendCoverFrame, sendCoverSize, List.length_cons, List.length_map,
        List.length_range]
      omega
    · simp [sendCoverSize]
    · have := r.isLt
      simp only [sendCoverSize]
      omega
  · exact ⟨⟨1535, by norm_num⟩, rfl⟩

/-- Counterexample to C9 as stated: no draw of
512 + Math.floor(Math.random() * 1536) equals 2048. -/
theorem sendCoverSize_never_2048 : ¬ ∃ r : Fin 1536, sendCoverSize r = 2048 := by
  rintro ⟨r, hr⟩
  have hlt := r.isLt
  simp only [sendCoverSize] at hr
  omega

/-- C10: when the first-hop data channel is missing or not open,
sendToNextHop transmits nothing and send resolves successfully with
zero substrate emissions. -/
theorem send_ok_when_first_hop_channel_unavailable (ec : ECProvider) (rs : List (Nat × List Nat))
    (channels : List (List Nat × ChannelState)) (circuit : Circuit) (restCircuits : List Circuit)
    (payload : List Nat) (padRnd : Nat → Nat)
    (h : ∀ ch ∈ channels, ch.1 = (circuit.nodes.headD ⟨[], [], 0⟩).id → ch.2 ≠ ChannelState.opened) :
    sendAORP ec rs channels (circuit :: restCircuits) payload padRnd = .ok [] := by
  have hform : sendAORP ec rs channels (circuit :: restCircuits) payload padRnd
      = .ok (sendToNextHop channels
          (encryptOnion ec rs circuit.nodes (buildAORPPacket payload circuit.nodes padRnd))
          (circuit.nodes.headD ⟨[], [], 0⟩).id) := rfl
  rw [hform]
  congr 1
  unfold sendToNextHop
  cases hf : channels.find? fun ch => ch.1 == (circuit.nodes.headD ⟨[], [], 0⟩).id with
  | none => rfl
  | some ch =>
    have hmem := List.mem_of_find?_eq_some hf
    have hp := List.find?_some hf
    dsimp only
    rw [if_neg (h ch hmem (by simpa using hp))]

/-- Witness for C10: the only channel to the first hop is closed, so
send resolves with no emissions. -/
theorem send_ok_when_first_hop_channel_unavailable_witness :
    sendAORP demoEC [] demoChannels [demoClosedHopCircuit] [1, 2] rnd0 = .ok [] :=
  send_ok_when_first_hop_channel_unavailable demoEC [] demoChannels demoClosedHopCircuit []
    [1, 2] rnd0 (by decide)
